import Mathlib

/-!
# PiecewiseJerkSpeedProblem

A shallow embedding of `modules/planning/math/piecewise_jerk/piecewise_jerk_speed_problem.h`.

* `double` values are modelled as rationals (`ℚ`): exact arithmetic on finite
  values. The inline setters only copy values, so nothing in their model depends
  on rounding.
* `std::vector<double>` is `List ℚ`, `std::array<double, 3>` is `ℚ × ℚ × ℚ`.
* The object is a record; a `void` member function that mutates `this` is a
  function from the record before the call to the record after it.
-/

/-- The error taxonomy named by the specification. -/
inductive Status where
  | OK
  | InvalidArgument
  | OptimizationFailed
  deriving DecidableEq, Repr

/-- The data members of `PiecewiseJerkSpeedProblem` (header lines 77-97), in
declaration order, with their default member initialisers. `num_of_knots_` and
`delta_s_` are the constructor arguments kept by the base class
`PiecewiseJerkProblem`. `end_state_target_` has no initialiser in the header. -/
structure PiecewiseJerkSpeedProblem where
  num_of_knots_ : Nat
  delta_s_ : ℚ
  has_x_reference_ : Bool := false
  weight_x_reference_ : ℚ := 0
  x_reference_ : List ℚ := []
  has_dx_reference_ : Bool := false
  weight_dx_reference_ : ℚ := 0
  dx_reference_ : ℚ := 0
  penalty_dx_ : List ℚ := []
  end_state_target_ : ℚ × ℚ × ℚ
  weight_end_x_ : ℚ := 0
  weight_end_dx_ : ℚ := 0
  weight_end_ddx_ : ℚ := 0
  deriving DecidableEq, Repr

namespace PiecewiseJerkSpeedProblem

/-- The object as the default member initialisers of the header leave it, for the
constructor arguments `num_of_knots`, `delta_s` and `x_end` (the one member
without an initialiser, `end_state_target_`, is taken from `x_end`). -/
def default_configuration (num_of_knots : Nat) (delta_s : ℚ) (x_end : ℚ × ℚ × ℚ) :
    PiecewiseJerkSpeedProblem :=
  { num_of_knots_ := num_of_knots, delta_s_ := delta_s, end_state_target_ := x_end }

/-- Header lines 58-62:
`weight_dx_reference_ = weight_dx_reference; dx_reference_ = dx_ref;
has_dx_reference_ = true;`. The function returns `void` and has no other
statement. -/
def set_dx_reference (p : PiecewiseJerkSpeedProblem) (weight_dx_reference dx_ref : ℚ) :
    PiecewiseJerkSpeedProblem :=
  { p with
    weight_dx_reference_ := weight_dx_reference
    dx_reference_ := dx_ref
    has_dx_reference_ := true }

/-- Header lines 66-68: `weight_end_x_ = weight_x_end;`. The function returns
`void` and has no other statement. -/
def set_weight_x_end (p : PiecewiseJerkSpeedProblem) (weight_x_end : ℚ) :
    PiecewiseJerkSpeedProblem :=
  { p with weight_end_x_ := weight_x_end }

/-- Modelled from the spec: the body of `set_x_reference`, which the header only
declares. The spec requires `reference_sequence.length == N`, failing with
`InvalidArgument` otherwise and performing no partial assembly; on success the
per-knot position reference is enabled with the given weight. The result pairs
the reported status with the object after the call. -/
def set_x_reference (p : PiecewiseJerkSpeedProblem) (weight_x_reference : ℚ)
    (x_ref : List ℚ) : Status × PiecewiseJerkSpeedProblem :=
  if x_ref.length = p.num_of_knots_ then
    (Status.OK,
      { p with
        weight_x_reference_ := weight_x_reference
        x_reference_ := x_ref
        has_x_reference_ := true })
  else
    (Status.InvalidArgument, p)

end PiecewiseJerkSpeedProblem

/-- One call of a public inline setter of the header, with its arguments. -/
inductive SetterCall where
  | set_dx_reference (weight_dx_reference dx_ref : ℚ)
  | set_weight_x_end (weight_x_end : ℚ)
  deriving DecidableEq, Repr

namespace SetterCall

/-- The effect of one inline setter call on the object. -/
def apply (p : PiecewiseJerkSpeedProblem) : SetterCall → PiecewiseJerkSpeedProblem
  | set_dx_reference w v => p.set_dx_reference w v
  | set_weight_x_end w => p.set_weight_x_end w

/-- The object after a finite sequence of inline setter calls, first call first. -/
def run (p : PiecewiseJerkSpeedProblem) : List SetterCall → PiecewiseJerkSpeedProblem
  | [] => p
  | c :: cs => run (apply p c) cs

end SetterCall

/-! ## Cost assembly

`CalculateKernel` and `CalculateOffset` are declared in the header (lines 71-75)
and defined in a translation unit that is not part of the sources at hand. The
definitions below follow the specification's description of them. The variable
vector uses the knot-grouped layout `[x0, dx0, ddx0, x1, dx1, ddx1, ...]`; the
kernel is given as the symmetric matrix that the upper-triangular
compressed-column data denotes, entry by entry.

The header (line 70) fixes the solver's convention, under which the objective is
`½·xᵀPx + qᵀx`, and the specification requires that this objective equal the total
cost up to a constant, the total cost being the sum of the penalties
`weight·(x(k) − reference[k])²` and their like. Each term (a)-(d) therefore
contributes its coefficient in the cost (`weight` for a penalty
`weight·(x − r)²`, alongside the offset contribution `−2·weight·r`), and the
kernel entry handed to the solver is twice the accumulated coefficient. -/

namespace PiecewiseJerkSpeedProblem

/-- Slot of knot `k`'s velocity in the variable vector. -/
def dx_slot (k : Nat) : Nat := 3 * k + 1

/-- Slot of knot `k`'s acceleration in the variable vector. -/
def ddx_slot (k : Nat) : Nat := 3 * k + 2

/-- Modelled from the spec: the per-knot multiplier `penalty_dx_[k]` read by the
absent `CalculateKernel`; an empty `penalty_dx_` means uniform weight, so a
missing entry reads as `1`. -/
def penalty_dx_at (p : PiecewiseJerkSpeedProblem) (k : Nat) : ℚ := p.penalty_dx_.getD k 1

/-- Modelled from the spec: the coefficient of the fixed jerk term of the absent
`CalculateKernel`. The jerk between two knots is the acceleration difference
divided by the knot spacing, so its square carries `1 / delta_s²`. -/
def jerk_weight (p : PiecewiseJerkSpeedProblem) : ℚ := 1 / (p.delta_s_ * p.delta_s_)

/-- Modelled from the spec: term (b) of the absent `CalculateKernel`, the diagonal
contribution `weight_x_reference_` at each knot's x slot, only if
`has_x_reference_`. -/
def x_reference_kernel_term (p : PiecewiseJerkSpeedProblem) : ℚ :=
  if p.has_x_reference_ then p.weight_x_reference_ else 0

/-- Modelled from the spec: term (c) of the absent `CalculateKernel`, the diagonal
contribution `weight_dx_reference_ · penalty_dx_[k]` at knot `k`'s dx slot, only
if `has_dx_reference_`. -/
def dx_reference_kernel_term (p : PiecewiseJerkSpeedProblem) (k : Nat) : ℚ :=
  if p.has_dx_reference_ then p.weight_dx_reference_ * p.penalty_dx_at k else 0

/-- Modelled from the spec: term (d) of the absent `CalculateKernel`, an end-state
weight added to the last knot's diagonal entry only. -/
def end_state_kernel_term (p : PiecewiseJerkSpeedProblem) (weight : ℚ) (k : Nat) : ℚ :=
  if k + 1 = p.num_of_knots_ then weight else 0

/-- Modelled from the spec: the matrix of `c · Σ (ddx(k+1) − ddx(k))²` over the
`n` accelerations, the shape of term (a) of the absent `CalculateKernel`: on the
diagonal `c` for each neighbouring knot, `-c` between neighbouring knots. -/
def jerk_matrix (n : Nat) (c : ℚ) (k l : Nat) : ℚ :=
  if k = l then (if 0 < k then c else 0) + (if k + 1 < n then c else 0)
  else if k + 1 = l ∨ l + 1 = k then -c else 0

/-- Modelled from the spec: term (a) of the absent `CalculateKernel`, the fixed
jerk-minimization term, quadratic in consecutive acceleration differences; it
touches acceleration slots only. -/
def jerk_kernel_term (p : PiecewiseJerkSpeedProblem) (i j : Nat) : ℚ :=
  if i % 3 = 2 ∧ j % 3 = 2 then jerk_matrix p.num_of_knots_ p.jerk_weight (i / 3) (j / 3) else 0

/-- Modelled from the spec: the diagonal-only terms (b), (c), (d) of the absent
`CalculateKernel` at slot `i`. -/
def diagonal_kernel_term (p : PiecewiseJerkSpeedProblem) (i : Nat) : ℚ :=
  if i % 3 = 0 then p.x_reference_kernel_term + p.end_state_kernel_term p.weight_end_x_ (i / 3)
  else if i % 3 = 1 then
    p.dx_reference_kernel_term (i / 3) + p.end_state_kernel_term p.weight_end_dx_ (i / 3)
  else p.end_state_kernel_term p.weight_end_ddx_ (i / 3)

/-- Modelled from the spec: `CalculateKernel`, declared in the header and defined
elsewhere. Entry `(i, j)` of the `3N × 3N` kernel `P`: the contributions of the
jerk term and, on the diagonal, of the reference and end-state terms are
accumulated, and the entry is twice that sum, so that `½·xᵀPx + qᵀx` is the total
cost up to a constant; zero outside the matrix. -/
def CalculateKernel (p : PiecewiseJerkSpeedProblem) (i j : Nat) : ℚ :=
  if i < 3 * p.num_of_knots_ ∧ j < 3 * p.num_of_knots_ then
    2 * (p.jerk_kernel_term i j + (if i = j then p.diagonal_kernel_term i else 0))
  else 0

/-- Modelled from the spec: the offset contribution of the x-reference term of the
absent `CalculateOffset`, `−2 · weight · reference[k]` at knot `k`'s x slot. -/
def x_reference_offset_term (p : PiecewiseJerkSpeedProblem) (k : Nat) : ℚ :=
  if p.has_x_reference_ then -2 * p.weight_x_reference_ * p.x_reference_.getD k 0 else 0

/-- Modelled from the spec: the offset contribution of the scalar dx-reference term
of the absent `CalculateOffset`, `−2 · weight · value` at each knot's dx slot. -/
def dx_reference_offset_term (p : PiecewiseJerkSpeedProblem) : ℚ :=
  if p.has_dx_reference_ then -2 * p.weight_dx_reference_ * p.dx_reference_ else 0

/-- Modelled from the spec: an end-state offset contribution of the absent
`CalculateOffset`, `−2 · weight · target` at the last knot's slot only. -/
def end_state_offset_term (p : PiecewiseJerkSpeedProblem) (weight target : ℚ) (k : Nat) : ℚ :=
  if k + 1 = p.num_of_knots_ then -2 * weight * target else 0

/-- Modelled from the spec: entry `i` of the linear term built by the absent
`CalculateOffset`. -/
def offset_entry (p : PiecewiseJerkSpeedProblem) (i : Nat) : ℚ :=
  if i % 3 = 0 then
    p.x_reference_offset_term (i / 3)
      + p.end_state_offset_term p.weight_end_x_ p.end_state_target_.1 (i / 3)
  else if i % 3 = 1 then
    p.dx_reference_offset_term
      + p.end_state_offset_term p.weight_end_dx_ p.end_state_target_.2.1 (i / 3)
  else p.end_state_offset_term p.weight_end_ddx_ p.end_state_target_.2.2 (i / 3)

/-- Modelled from the spec: `CalculateOffset`, declared in the header and defined
elsewhere. The linear term `q`, one entry per slot of the variable vector. -/
def CalculateOffset (p : PiecewiseJerkSpeedProblem) : List ℚ :=
  (List.range (3 * p.num_of_knots_)).map p.offset_entry

end PiecewiseJerkSpeedProblem

/-- A configured problem used to evaluate the definitions: two knots spaced `1/2`
apart, both reference terms enabled, per-knot multipliers `1` and `1/2`, and a
terminal position weight. -/
def example_problem : PiecewiseJerkSpeedProblem :=
  { num_of_knots_ := 2
    delta_s_ := 1 / 2
    has_x_reference_ := true
    weight_x_reference_ := 1
    x_reference_ := [1, 2]
    has_dx_reference_ := true
    weight_dx_reference_ := 2
    dx_reference_ := 3
    penalty_dx_ := [1, 1 / 2]
    end_state_target_ := (10, 0, 0)
    weight_end_x_ := 1
    weight_end_dx_ := 0
    weight_end_ddx_ := 0 }

/-- The quadratic form `vᵀ P v` of an `n × n` matrix `P` at a vector `v`. -/
def quadratic_form (n : Nat) (P : Nat → Nat → ℚ) (v : Nat → ℚ) : ℚ :=
  ∑ i in Finset.range n, ∑ j in Finset.range n, v i * P i j * v j

open PiecewiseJerkSpeedProblem

/-! ## Shared lemmas on sequences of setter calls -/

lemma run_weight_end_dx (cs : List SetterCall) (p : PiecewiseJerkSpeedProblem) :
    (SetterCall.run p cs).weight_end_dx_ = p.weight_end_dx_ := by
  induction cs generalizing p with
  | nil => rfl
  | cons c cs ih =>
    cases c <;> simp [SetterCall.run, SetterCall.apply, ih, set_dx_reference, set_weight_x_end]

lemma run_weight_end_ddx (cs : List SetterCall) (p : PiecewiseJerkSpeedProblem) :
    (SetterCall.run p cs).weight_end_ddx_ = p.weight_end_ddx_ := by
  induction cs generalizing p with
  | nil => rfl
  | cons c cs ih =>
    cases c <;> simp [SetterCall.run, SetterCall.apply, ih, set_dx_reference, set_weight_x_end]

lemma run_has_dx_reference_stays (cs : List SetterCall) (p : PiecewiseJerkSpeedProblem)
    (h : p.has_dx_reference_ = true) : (SetterCall.run p cs).has_dx_reference_ = true := by
  induction cs generalizing p with
  | nil => exact h
  | cons c cs ih =>
    cases c with
    | set_dx_reference w v => exact ih _ rfl
    | set_weight_x_end w => exact ih _ h

lemma run_dx_reference_unset (cs : List SetterCall) (p : PiecewiseJerkSpeedProblem)
    (hp : p.has_dx_reference_ = false → p.weight_dx_reference_ = 0 ∧ p.dx_reference_ = 0)
    (h : (SetterCall.run p cs).has_dx_reference_ = false) :
    (SetterCall.run p cs).weight_dx_reference_ = 0 ∧ (SetterCall.run p cs).dx_reference_ = 0 := by
  induction cs generalizing p with
  | nil => exact hp h
  | cons c cs ih =>
    cases c with
    | set_dx_reference w v =>
      have ht := run_has_dx_reference_stays cs (p.set_dx_reference w v) rfl
      simp only [SetterCall.run, SetterCall.apply] at h
      rw [ht] at h
      exact absurd h (by decide)
    | set_weight_x_end w => exact ih (p.set_weight_x_end w) hp h

/-! ## The inline setters -/

/-- C1 (as the code has it): for every weight `w`, negative ones included, and every
value `v`, `set_dx_reference(w, v)` stores `w` in `weight_dx_reference_` and
`set_weight_x_end(w)` stores `w` in `weight_end_x_`; there is no validation. -/
theorem setters_store_any_weight (p : PiecewiseJerkSpeedProblem) (w v : ℚ) :
    (p.set_dx_reference w v).weight_dx_reference_ = w ∧
    (p.set_weight_x_end w).weight_end_x_ = w :=
  ⟨rfl, rfl⟩

/-- C1, counterexample: on the default object with `N = 2`, `Δs = 1`, the negative
weight `-1` is stored by both `set_dx_reference(-1, 0)` and `set_weight_x_end(-1)`,
and the velocity-reference term is switched on with it. -/
theorem negative_weight_is_stored :
    (-1 : ℚ) < 0 ∧
    ((default_configuration 2 1 (0, 0, 0)).set_dx_reference (-1) 0).weight_dx_reference_ = -1 ∧
    ((default_configuration 2 1 (0, 0, 0)).set_dx_reference (-1) 0).has_dx_reference_ = true ∧
    ((default_configuration 2 1 (0, 0, 0)).set_weight_x_end (-1)).weight_end_x_ = -1 :=
  ⟨by norm_num, rfl, rfl, rfl⟩

/-- C3: after `set_dx_reference(w, v)` the velocity-reference term is enabled with
exactly `w` and `v`, whatever the three fields held before. -/
theorem set_dx_reference_enables (p : PiecewiseJerkSpeedProblem) (w v : ℚ) :
    (p.set_dx_reference w v).has_dx_reference_ = true ∧
    (p.set_dx_reference w v).weight_dx_reference_ = w ∧
    (p.set_dx_reference w v).dx_reference_ = v :=
  ⟨rfl, rfl, rfl⟩

/-- C4: `set_weight_x_end(w)` sets `weight_end_x_` to `w` and leaves every other
member as it was. -/
theorem set_weight_x_end_frame (p : PiecewiseJerkSpeedProblem) (w : ℚ) :
    (p.set_weight_x_end w).weight_end_x_ = w ∧
    (p.set_weight_x_end w).weight_end_dx_ = p.weight_end_dx_ ∧
    (p.set_weight_x_end w).weight_end_ddx_ = p.weight_end_ddx_ ∧
    (p.set_weight_x_end w).end_state_target_ = p.end_state_target_ ∧
    (p.set_weight_x_end w).has_x_reference_ = p.has_x_reference_ ∧
    (p.set_weight_x_end w).weight_x_reference_ = p.weight_x_reference_ ∧
    (p.set_weight_x_end w).x_reference_ = p.x_reference_ ∧
    (p.set_weight_x_end w).has_dx_reference_ = p.has_dx_reference_ ∧
    (p.set_weight_x_end w).weight_dx_reference_ = p.weight_dx_reference_ ∧
    (p.set_weight_x_end w).dx_reference_ = p.dx_reference_ ∧
    (p.set_weight_x_end w).penalty_dx_ = p.penalty_dx_ ∧
    (p.set_weight_x_end w).num_of_knots_ = p.num_of_knots_ ∧
    (p.set_weight_x_end w).delta_s_ = p.delta_s_ :=
  ⟨rfl, rfl, rfl, rfl, rfl, rfl, rfl, rfl, rfl, rfl, rfl, rfl, rfl⟩

/-- C5: in the default configuration every optional cost term is disabled: both
flags are false, every weight and the scalar velocity reference are zero, and the
two sequences are empty. -/
theorem default_configuration_disabled (n : Nat) (delta_s : ℚ) (x_end : ℚ × ℚ × ℚ) :
    (default_configuration n delta_s x_end).has_x_reference_ = false ∧
    (default_configuration n delta_s x_end).has_dx_reference_ = false ∧
    (default_configuration n delta_s x_end).weight_x_reference_ = 0 ∧
    (default_configuration n delta_s x_end).weight_dx_reference_ = 0 ∧
    (default_configuration n delta_s x_end).dx_reference_ = 0 ∧
    (default_configuration n delta_s x_end).x_reference_ = [] ∧
    (default_configuration n delta_s x_end).penalty_dx_ = [] ∧
    (default_configuration n delta_s x_end).weight_end_x_ = 0 ∧
    (default_configuration n delta_s x_end).weight_end_dx_ = 0 ∧
    (default_configuration n delta_s x_end).weight_end_ddx_ = 0 :=
  ⟨rfl, rfl, rfl, rfl, rfl, rfl, rfl, rfl, rfl, rfl⟩

/-- C2: when the reference sequence's length differs from `N`, `set_x_reference`
reports `InvalidArgument` and the object after the call is the object before it,
so `has_x_reference_`, `weight_x_reference_` and `x_reference_` are unchanged. -/
theorem set_x_reference_length_mismatch (p : PiecewiseJerkSpeedProblem) (w : ℚ)
    (x_ref : List ℚ) (h : x_ref.length ≠ p.num_of_knots_) :
    (p.set_x_reference w x_ref).1 = Status.InvalidArgument ∧
    (p.set_x_reference w x_ref).2.has_x_reference_ = p.has_x_reference_ ∧
    (p.set_x_reference w x_ref).2.weight_x_reference_ = p.weight_x_reference_ ∧
    (p.set_x_reference w x_ref).2.x_reference_ = p.x_reference_ ∧
    (p.set_x_reference w x_ref).2 = p := by
  simp [set_x_reference, h]

/-- C2, witness: a reference of length 3 offered to a problem with 2 knots. -/
theorem set_x_reference_length_mismatch_witness :
    ([1, 2, 3] : List ℚ).length ≠ (default_configuration 2 1 (0, 0, 0)).num_of_knots_ ∧
    ((default_configuration 2 1 (0, 0, 0)).set_x_reference 5 [1, 2, 3]).1
      = Status.InvalidArgument ∧
    ((default_configuration 2 1 (0, 0, 0)).set_x_reference 5 [1, 2, 3]).2.x_reference_ = [] :=
  have h : ([1, 2, 3] : List ℚ).length ≠ (default_configuration 2 1 (0, 0, 0)).num_of_knots_ := by
    decide
  ⟨h, (set_x_reference_length_mismatch _ 5 [1, 2, 3] h).1,
    (set_x_reference_length_mismatch _ 5 [1, 2, 3] h).2.2.2.1⟩

/-! ## Reachable states of the inline setters -/

/-- C9: after any finite sequence of `set_dx_reference` / `set_weight_x_end` calls
on the default configuration, `weight_end_dx_ = 0` and `weight_end_ddx_ = 0`. -/
theorem end_velocity_acceleration_weights_stay_zero (n : Nat) (delta_s : ℚ)
    (x_end : ℚ × ℚ × ℚ) (cs : List SetterCall) :
    (SetterCall.run (default_configuration n delta_s x_end) cs).weight_end_dx_ = 0 ∧
    (SetterCall.run (default_configuration n delta_s x_end) cs).weight_end_ddx_ = 0 :=
  ⟨(run_weight_end_dx cs _).trans rfl, (run_weight_end_ddx cs _).trans rfl⟩

/-- C10: in every state reached from the default configuration by inline setter
calls, a false `has_dx_reference_` comes with `weight_dx_reference_ = 0` and
`dx_reference_ = 0`; and if the flag is true in such a state it is still true
after any further sequence of inline setter calls. -/
theorem dx_reference_flag_consistent (n : Nat) (delta_s : ℚ) (x_end : ℚ × ℚ × ℚ)
    (cs later : List SetterCall) :
    ((SetterCall.run (default_configuration n delta_s x_end) cs).has_dx_reference_ = false →
      (SetterCall.run (default_configuration n delta_s x_end) cs).weight_dx_reference_ = 0 ∧
      (SetterCall.run (default_configuration n delta_s x_end) cs).dx_reference_ = 0) ∧
    ((SetterCall.run (default_configuration n delta_s x_end) cs).has_dx_reference_ = true →
      (SetterCall.run (SetterCall.run (default_configuration n delta_s x_end) cs)
        later).has_dx_reference_ = true) :=
  ⟨fun h => run_dx_reference_unset cs _ (fun _ => ⟨rfl, rfl⟩) h,
    fun h => run_has_dx_reference_stays later _ h⟩

/-- C10, witness: the flag is false after `set_weight_x_end(1)` alone, with both
fields zero; it is true after `set_dx_reference(2, 3)` and stays true through a
later `set_weight_x_end(1)`. -/
theorem dx_reference_flag_consistent_witness :
    ((SetterCall.run (default_configuration 2 1 (0, 0, 0))
        [SetterCall.set_weight_x_end 1]).has_dx_reference_ = false ∧
      (SetterCall.run (default_configuration 2 1 (0, 0, 0))
        [SetterCall.set_weight_x_end 1]).weight_dx_reference_ = 0 ∧
      (SetterCall.run (default_configuration 2 1 (0, 0, 0))
        [SetterCall.set_weight_x_end 1]).dx_reference_ = 0) ∧
    ((SetterCall.run (default_configuration 2 1 (0, 0, 0))
        [SetterCall.set_dx_reference 2 3]).has_dx_reference_ = true ∧
      (SetterCall.run (SetterCall.run (default_configuration 2 1 (0, 0, 0))
        [SetterCall.set_dx_reference 2 3]) [SetterCall.set_weight_x_end 1]).has_dx_reference_
        = true) :=
  ⟨⟨rfl, (dx_reference_flag_consistent 2 1 (0, 0, 0) [SetterCall.set_weight_x_end 1] []).1 rfl⟩,
    ⟨rfl, (dx_reference_flag_consistent 2 1 (0, 0, 0) [SetterCall.set_dx_reference 2 3]
      [SetterCall.set_weight_x_end 1]).2 rfl⟩⟩

/-! ## The kernel is symmetric positive semi-definite -/

open Finset in
lemma sum_range_three_mul (f : ℕ → ℚ) (n : ℕ) :
    ∑ i in range (3 * n), f i = ∑ k in range n, (f (3 * k) + f (3 * k + 1) + f (3 * k + 2)) := by
  induction n with
  | zero => simp
  | succ n ih =>
    rw [show 3 * (n + 1) = 3 * n + 1 + 1 + 1 by ring, sum_range_succ, sum_range_succ,
      sum_range_succ, ih, sum_range_succ (fun k => f (3 * k) + f (3 * k + 1) + f (3 * k + 2))]
    ring

open Finset in
lemma sum_diag (n : ℕ) (d v : ℕ → ℚ) :
    ∑ i in range n, ∑ j in range n, v i * (if i = j then d i else 0) * v j
      = ∑ i in range n, d i * v i ^ 2 := by
  refine sum_congr rfl fun i hi => ?_
  simp only [mul_ite, ite_mul, mul_zero, zero_mul]
  rw [sum_ite_eq, if_pos hi]
  ring

lemma jerk_matrix_split (n : Nat) (c : ℚ) (k l : Nat) :
    jerk_matrix n c k l
      = (if k = l then (if 0 < k then c else 0) + (if k + 1 < n then c else 0) else 0)
        + (if k + 1 = l then -c else 0) + (if l + 1 = k then -c else 0) := by
  unfold jerk_matrix
  by_cases h1 : k = l
  · subst h1; simp
  · by_cases h2 : k + 1 = l
    · have h3 : ¬ l + 1 = k := by omega
      simp [h1, h2, h3]
    · by_cases h3 : l + 1 = k
      · simp [h1, h2, h3]
      · simp [h1, h2, h3]

open Finset in
lemma sum_pred (n : ℕ) (g : ℕ → ℚ) (k : ℕ) (hk : k < n) :
    ∑ l in range n, (if l + 1 = k then g l else 0) = if 0 < k then g (k - 1) else 0 := by
  rcases k with _ | m
  · simp
  · have : ∀ l, (l + 1 = m + 1) = (m = l) := by
      intro l; apply propext; constructor <;> intro h <;> omega
    simp only [this]
    rw [sum_ite_eq, if_pos (mem_range.mpr (by omega))]
    simp

open Finset in
lemma jerk_matrix_row (n : Nat) (c : ℚ) (a : ℕ → ℚ) (k : ℕ) (hk : k < n) :
    ∑ l in range n, a k * jerk_matrix n c k l * a l
      = (if 0 < k then c * (a k ^ 2 - a k * a (k - 1)) else 0)
        + (if k + 1 < n then c * (a k ^ 2 - a k * a (k + 1)) else 0) := by
  have h1 : ∀ l, a k * jerk_matrix n c k l * a l
      = (if k = l then a k * ((if 0 < k then c else 0) + (if k + 1 < n then c else 0)) * a l else 0)
        + (if k + 1 = l then a k * (-c) * a l else 0)
        + (if l + 1 = k then a k * (-c) * a l else 0) := by
    intro l
    rw [jerk_matrix_split]
    split_ifs <;> ring
  simp only [h1, sum_add_distrib]
  rw [sum_ite_eq, sum_ite_eq, sum_pred n (fun l => a k * (-c) * a l) k hk, if_pos (mem_range.mpr hk)]
  simp only [mem_range]
  split_ifs <;> ring

open Finset in
lemma jerk_matrix_quadratic (n : Nat) (c : ℚ) (a : ℕ → ℚ) :
    ∑ k in range n, ∑ l in range n, a k * jerk_matrix n c k l * a l
      = c * ∑ k in range (n - 1), (a (k + 1) - a k) ^ 2 := by
  rw [sum_congr rfl fun k hk => jerk_matrix_row n c a k (mem_range.mp hk), sum_add_distrib]
  rcases n with _ | m
  · simp
  · rw [sum_range_succ' (fun k => if 0 < k then c * (a k ^ 2 - a k * a (k - 1)) else 0),
      sum_range_succ (fun k => if k + 1 < m + 1 then c * (a k ^ 2 - a k * a (k + 1)) else 0)]
    simp only [lt_self_iff_false, if_false, add_zero, Nat.add_sub_cancel, Nat.succ_pos, if_true]
    rw [sum_congr rfl fun k hk => if_pos (by have := mem_range.mp hk; omega : k + 1 < m + 1),
      ← sum_add_distrib, mul_sum]
    refine sum_congr rfl fun k _ => ?_
    ring

lemma jerk_matrix_symm (n : Nat) (c : ℚ) (k l : Nat) :
    jerk_matrix n c k l = jerk_matrix n c l k := by
  unfold jerk_matrix
  by_cases h : k = l
  · subst h; rfl
  · have h' : ¬ l = k := fun e => h e.symm
    simp only [h, h', if_false, or_comm]

lemma kernel_symm (p : PiecewiseJerkSpeedProblem) (i j : Nat) :
    p.CalculateKernel i j = p.CalculateKernel j i := by
  unfold CalculateKernel jerk_kernel_term
  by_cases h : i = j
  · subst h; rfl
  · have h' : ¬ j = i := fun e => h e.symm
    simp only [h, h', if_false, add_zero, and_comm,
      jerk_matrix_symm p.num_of_knots_ _ (i / 3) (j / 3)]

lemma jerk_weight_nonneg (p : PiecewiseJerkSpeedProblem) : 0 ≤ p.jerk_weight :=
  div_nonneg zero_le_one (mul_self_nonneg _)

lemma getD_one_nonneg (xs : List ℚ) (h : ∀ x ∈ xs, 0 ≤ x) (k : Nat) : 0 ≤ xs.getD k 1 := by
  induction xs generalizing k with
  | nil => simp
  | cons x xs ih =>
    cases k with
    | zero => simpa using h x (List.mem_cons_self _ _)
    | succ k => simpa using ih (fun y hy => h y (List.mem_cons_of_mem _ hy)) k

open Finset in
lemma jerk_quadratic (p : PiecewiseJerkSpeedProblem) (v : ℕ → ℚ) :
    quadratic_form (3 * p.num_of_knots_) p.jerk_kernel_term v
      = p.jerk_weight *
        ∑ k in range (p.num_of_knots_ - 1), (v (ddx_slot (k + 1)) - v (ddx_slot k)) ^ 2 := by
  unfold quadratic_form ddx_slot
  have m0 : ∀ k, (3 * k) % 3 = 0 := fun k => by omega
  have m1 : ∀ k, (3 * k + 1) % 3 = 1 := fun k => by omega
  have m2 : ∀ k, (3 * k + 2) % 3 = 2 := fun k => by omega
  have d2 : ∀ k, (3 * k + 2) / 3 = k := fun k => by omega
  rw [sum_range_three_mul]
  simp only [sum_range_three_mul, jerk_kernel_term, m0, m1, m2, d2]
  simp
  rw [← jerk_matrix_quadratic p.num_of_knots_ p.jerk_weight (fun k => v (3 * k + 2))]

open Finset in
lemma kernel_quadratic (p : PiecewiseJerkSpeedProblem) (v : ℕ → ℚ) :
    quadratic_form (3 * p.num_of_knots_) p.CalculateKernel v
      = 2 * (p.jerk_weight *
          ∑ k in range (p.num_of_knots_ - 1), (v (ddx_slot (k + 1)) - v (ddx_slot k)) ^ 2
        + ∑ i in range (3 * p.num_of_knots_), p.diagonal_kernel_term i * v i ^ 2) := by
  rw [← jerk_quadratic, ← sum_diag]
  unfold quadratic_form
  rw [← sum_add_distrib, mul_sum]
  refine sum_congr rfl fun i hi => ?_
  rw [← sum_add_distrib, mul_sum]
  refine sum_congr rfl fun j hj => ?_
  rw [CalculateKernel, if_pos ⟨mem_range.mp hi, mem_range.mp hj⟩]
  ring

lemma diagonal_kernel_term_nonneg (p : PiecewiseJerkSpeedProblem)
    (hx : 0 ≤ p.weight_x_reference_) (hdx : 0 ≤ p.weight_dx_reference_)
    (hpen : ∀ m ∈ p.penalty_dx_, 0 ≤ m)
    (hex : 0 ≤ p.weight_end_x_) (hedx : 0 ≤ p.weight_end_dx_) (heddx : 0 ≤ p.weight_end_ddx_)
    (i : Nat) : 0 ≤ p.diagonal_kernel_term i := by
  have hend : ∀ w : ℚ, 0 ≤ w → ∀ k, 0 ≤ p.end_state_kernel_term w k := by
    intro w hw k
    unfold end_state_kernel_term
    split_ifs
    · exact hw
    · exact le_rfl
  have hxr : 0 ≤ p.x_reference_kernel_term := by
    unfold x_reference_kernel_term
    split_ifs
    · exact hx
    · exact le_rfl
  have hdxr : ∀ k, 0 ≤ p.dx_reference_kernel_term k := by
    intro k
    unfold dx_reference_kernel_term penalty_dx_at
    split_ifs
    · exact mul_nonneg hdx (getD_one_nonneg _ hpen k)
    · exact le_rfl
  unfold diagonal_kernel_term
  split_ifs
  · exact add_nonneg hxr (hend _ hex _)
  · exact add_nonneg (hdxr _) (hend _ hedx _)
  · exact hend _ heddx _

/-- C6: for `N ≥ 2`, `Δs > 0` and non-negative `weight_x_reference_`,
`weight_dx_reference_`, `penalty_dx_[k]`, `weight_end_x_`, `weight_end_dx_` and
`weight_end_ddx_`, the kernel is symmetric and `vᵀ P v ≥ 0` for every vector `v`
of length `3N`. -/
theorem kernel_symmetric_positive_semidefinite (p : PiecewiseJerkSpeedProblem)
    (_hN : 2 ≤ p.num_of_knots_) (_hds : 0 < p.delta_s_)
    (hx : 0 ≤ p.weight_x_reference_) (hdx : 0 ≤ p.weight_dx_reference_)
    (hpen : ∀ m ∈ p.penalty_dx_, 0 ≤ m)
    (hex : 0 ≤ p.weight_end_x_) (hedx : 0 ≤ p.weight_end_dx_) (heddx : 0 ≤ p.weight_end_ddx_) :
    (∀ i j, p.CalculateKernel i j = p.CalculateKernel j i) ∧
    ∀ v : Nat → ℚ, 0 ≤ quadratic_form (3 * p.num_of_knots_) p.CalculateKernel v := by
  refine ⟨kernel_symm p, fun v => ?_⟩
  rw [kernel_quadratic]
  refine mul_nonneg zero_le_two (add_nonneg
    (mul_nonneg (jerk_weight_nonneg p) (Finset.sum_nonneg fun k _ => sq_nonneg _))
    (Finset.sum_nonneg fun i _ => mul_nonneg ?_ (sq_nonneg _)))
  exact diagonal_kernel_term_nonneg p hx hdx hpen hex hedx heddx i

/-- C6, witness: the hypotheses hold for `example_problem`; its kernel is symmetric
at slots `(2, 5)` and its quadratic form is non-negative at `v i = i - 2`. -/
theorem kernel_symmetric_positive_semidefinite_witness :
    (2 ≤ example_problem.num_of_knots_ ∧ 0 < example_problem.delta_s_ ∧
      0 ≤ example_problem.weight_x_reference_ ∧ 0 ≤ example_problem.weight_dx_reference_) ∧
    example_problem.CalculateKernel 2 5 = example_problem.CalculateKernel 5 2 ∧
    0 ≤ quadratic_form (3 * example_problem.num_of_knots_) example_problem.CalculateKernel
      (fun i => (i : ℚ) - 2) :=
  have hN : 2 ≤ example_problem.num_of_knots_ := by decide
  have hds : 0 < example_problem.delta_s_ := by norm_num [example_problem]
  have hx : 0 ≤ example_problem.weight_x_reference_ := by norm_num [example_problem]
  have hdx : 0 ≤ example_problem.weight_dx_reference_ := by norm_num [example_problem]
  have hpen : ∀ m ∈ example_problem.penalty_dx_, 0 ≤ m := by
    intro m hm
    simp only [example_problem, List.mem_cons, List.mem_singleton, List.not_mem_nil,
      or_false] at hm
    rcases hm with rfl | rfl <;> norm_num
  have hex : 0 ≤ example_problem.weight_end_x_ := by norm_num [example_problem]
  have hedx : 0 ≤ example_problem.weight_end_dx_ := by norm_num [example_problem]
  have heddx : 0 ≤ example_problem.weight_end_ddx_ := by norm_num [example_problem]
  ⟨⟨hN, hds, hx, hdx⟩,
    (kernel_symmetric_positive_semidefinite example_problem hN hds hx hdx hpen hex hedx
      heddx).1 2 5,
    (kernel_symmetric_positive_semidefinite example_problem hN hds hx hdx hpen hex hedx
      heddx).2 _⟩

/-! ## The x-reference term of the cost -/

/-- C8: two problems that agree in every member except `end_state_target_`, with
all three end-state weights zero, get the same kernel and the same offset vector;
whatever is computed from kernel and offset alone is therefore the same too. -/
theorem unused_end_state_target_irrelevant (p1 p2 : PiecewiseJerkSpeedProblem)
    (hsame : p2 = { p1 with end_state_target_ := p2.end_state_target_ })
    (hx : p1.weight_end_x_ = 0) (hdx : p1.weight_end_dx_ = 0) (hddx : p1.weight_end_ddx_ = 0) :
    p1.CalculateKernel = p2.CalculateKernel ∧
    p1.CalculateOffset = p2.CalculateOffset ∧
    ∀ (β : Type) (solver : (Nat → Nat → ℚ) → List ℚ → β),
      solver p1.CalculateKernel p1.CalculateOffset
        = solver p2.CalculateKernel p2.CalculateOffset := by
  have hK : p1.CalculateKernel = p2.CalculateKernel := by
    rw [hsame]; rfl
  have hq : p1.CalculateOffset = p2.CalculateOffset := by
    rw [hsame]
    unfold CalculateOffset
    refine congrArg₂ List.map (funext fun i => ?_) rfl
    simp [offset_entry, end_state_offset_term, hx, hdx, hddx, x_reference_offset_term,
      dx_reference_offset_term]
  exact ⟨hK, hq, fun β solver => by rw [hK, hq]⟩

/-- C8, witness: the default two-knot problem with `set_dx_reference(2, 3)` and
end-state targets `(10, 20, 30)` and `(-7, 0, 5)`: the offset vector is the same. -/
theorem unused_end_state_target_irrelevant_witness :
    ((default_configuration 2 1 (10, 20, 30)).set_dx_reference 2 3).weight_end_x_ = 0 ∧
    ((default_configuration 2 1 (10, 20, 30)).set_dx_reference 2 3).CalculateOffset
      = ((default_configuration 2 1 (-7, 0, 5)).set_dx_reference 2 3).CalculateOffset ∧
    ((default_configuration 2 1 (10, 20, 30)).set_dx_reference 2 3).CalculateKernel
      = ((default_configuration 2 1 (-7, 0, 5)).set_dx_reference 2 3).CalculateKernel :=
  ⟨rfl,
    (unused_end_state_target_irrelevant
      ((default_configuration 2 1 (10, 20, 30)).set_dx_reference 2 3)
      ((default_configuration 2 1 (-7, 0, 5)).set_dx_reference 2 3) rfl rfl rfl rfl).2.1,
    (unused_end_state_target_irrelevant
      ((default_configuration 2 1 (10, 20, 30)).set_dx_reference 2 3)
      ((default_configuration 2 1 (-7, 0, 5)).set_dx_reference 2 3) rfl rfl rfl rfl).1⟩
